import Mathlib

/-!
Verification of the reconciliation/resume core of `Ot2Rec.recon` (class `Recon`).

The embedding follows `src/Ot2Rec/recon.py`:
* `get_internal_metadata` models `Recon._get_internal_metadata` (path derivation,
  stripping one trailing `'/'` from the output path and one trailing `'_'` from
  rootname and suffix, and building the `_recon_images` table);
* `check_reconned_images` models `Recon._check_reconned_images` (the two
  reconciliation passes over the persisted record and the filesystem);
* `update_recon_metadata`, `export_metadata` and `recon_stack` model the
  execution loop (`Recon.recon_stack`) including the stderr check;
* the filesystem is an existence predicate `String → Bool` (`os.path.isfile`),
  and the persisted record file is an `Option (List ReconRow)` (`None` models a
  missing `<proj>_recon_mdout.yaml`); directory creation (`os.makedirs`) is a
  side effect with no bearing on the derived data and is not modelled.
-/

/-- Python `s.endswith(c)` for a single character `c`. -/
def endsWithChar (s : String) (c : Char) : Bool :=
  s.data.getLast? == some c

/-- Python `s[:-1]` for a nonempty string (drop the last character). -/
def dropLastChar (s : String) : String :=
  String.mk s.data.dropLast

/-- Models `if s.endswith(c): s = s[:-1]` from `_get_internal_metadata`. -/
def stripTrailing (s : String) (c : Char) : String :=
  if endsWithChar s c then dropLastChar s else s

/-- Python `f"{n:02d}"`: decimal rendering left-padded with `'0'` to width 2.
(For negative numbers the rendering already has length ≥ 2, so no padding
occurs, as in Python at width 2.) -/
def pad2 (n : Int) : String :=
  let s := toString n
  if s.length < 2 then "0" ++ s else s

/-- One row of the `_recon_images` / `meta_out` DataFrames:
columns `ts`, `align_output`, `recon_output`. -/
structure ReconRow where
  ts : Int
  align_output : String
  recon_output : String
deriving DecidableEq, Repr

/-- The `params['System']` fields consumed by `Recon`. -/
structure SysParams where
  output_path : String
  output_rootname : String
  output_suffix : String
  process_list : List Int
deriving DecidableEq, Repr

/-- `f"{basis_folder}/{rootname}_{curr_ts:02d}{suffix}"` from `_get_internal_metadata`. -/
def subfolder (b r suf : String) (ts : Int) : String :=
  b ++ "/" ++ r ++ "_" ++ pad2 ts ++ suf

/-- The row of `_recon_images` derived for one tilt-series index `ts`
(after the trailing-separator stripping of `_get_internal_metadata`). -/
def rowOf (p : SysParams) (ts : Int) : ReconRow :=
  let b := stripTrailing p.output_path '/'
  let r := stripTrailing p.output_rootname '_'
  let suf := stripTrailing p.output_suffix '_'
  { ts := ts
    align_output := subfolder b r suf ts ++ "/" ++ r ++ "_" ++ pad2 ts ++ suf ++ "_ali.mrc"
    recon_output := subfolder b r suf ts ++ "/" ++ r ++ "_" ++ pad2 ts ++ suf ++ "_rec.mrc" }

/-- Result of `Recon._get_internal_metadata`. -/
structure InternalMeta where
  basis_folder : String
  rootname : String
  the_suffix : String
  path_dict : List (Int × String)
  recon_images : List ReconRow
deriving DecidableEq, Repr

/-- Models `Recon._get_internal_metadata`. -/
def get_internal_metadata (p : SysParams) : InternalMeta :=
  let b := stripTrailing p.output_path '/'
  let r := stripTrailing p.output_rootname '_'
  let suf := stripTrailing p.output_suffix '_'
  { basis_folder := b
    rootname := r
    the_suffix := suf
    path_dict := p.process_list.map (fun ts => (ts, subfolder b r suf ts))
    recon_images := p.process_list.map (rowOf p) }

/-- Pandas `DataFrame.drop_duplicates` (keep the first occurrence), via an
accumulator of already-seen rows. -/
def dedupFirstAux {α : Type} [DecidableEq α] (seen : List α) : List α → List α
  | [] => []
  | x :: xs =>
    if x ∈ seen then dedupFirstAux seen xs
    else x :: dedupFirstAux (x :: seen) xs

/-- Pandas `drop_duplicates(keep='first')` on a list of rows. -/
def dedupFirst {α : Type} [DecidableEq α] (l : List α) : List α :=
  dedupFirstAux [] l

/-- Loading `<proj>_recon_mdout.yaml`: an absent file yields an empty record. -/
def loadRecord (recordFile : Option (List ReconRow)) : List ReconRow :=
  match recordFile with
  | none => []
  | some rows => rows

/-- `self._missing`: rows of the (deduplicated) record whose `recon_output`
does not exist on the filesystem. -/
def missingRows (fs : String → Bool) (meta1 : List ReconRow) : List ReconRow :=
  meta1.filter (fun r => ! fs r.recon_output)

/-- `self._missing_specified`: the missing rows restricted, tilt-series by
tilt-series, to indices of the current `process_list`. -/
def missing_specified (pl : List Int) (fs : String → Bool) (meta1 : List ReconRow) :
    List ReconRow :=
  (pl.map (fun ts => (missingRows fs meta1).filter (fun r => decide (r.ts = ts)))).flatten

/-- Pass 1 of `_check_reconned_images` (lines 119–128): if the record is
nonempty, drop the rows that match a row of `_missing_specified` (the
left-merge with indicator keeps the `left_only` rows). -/
def pass1 (pl : List Int) (fs : String → Bool) (meta1 : List ReconRow) : List ReconRow :=
  if 0 < meta1.length then
    meta1.filter (fun r => decide (¬ r ∈ missing_specified pl fs meta1))
  else meta1

/-- The `recon_output` column of a record. -/
def reconOutputs (l : List ReconRow) : List String :=
  l.map ReconRow.recon_output

/-- The mutable `Recon` attributes touched by `_check_reconned_images`. -/
structure ReconState where
  recon_images : List ReconRow
  meta_out : List ReconRow
  process_list : List Int
  no_processes : Bool
deriving DecidableEq, Repr

/-- Models `Recon._check_reconned_images`: load and deduplicate the record,
run pass 1 (prune stale rows among the requested indices), run pass 2 (drop
input rows whose `recon_output` is already recorded), set `no_processes`, and
rebuild `_process_list` sorted ascending with duplicates removed. -/
def check_reconned_images (pl : List Int) (recordFile : Option (List ReconRow))
    (fs : String → Bool) (s : ReconState) : ReconState :=
  let meta2 := pass1 pl fs (dedupFirst (loadRecord recordFile))
  let ignored := s.recon_images.filter
    (fun r => decide (r.recon_output ∈ reconOutputs meta2))
  let kept := s.recon_images.filter
    (fun r => decide (¬ r.recon_output ∈ reconOutputs meta2))
  { recon_images := kept
    meta_out := meta2
    process_list := dedupFirst (List.insertionSort (fun a b : Int => a ≤ b) (kept.map ReconRow.ts))
    no_processes := if ignored.length = s.recon_images.length then true else s.no_processes }

/-- Models `Recon.__init__`: derive the internal metadata, initialise
`no_processes = False` and `_process_list`, then reconcile. -/
def reconInit (p : SysParams) (recordFile : Option (List ReconRow))
    (fs : String → Bool) : ReconState :=
  check_reconned_images p.process_list recordFile fs
    { recon_images := (get_internal_metadata p).recon_images
      meta_out := []
      process_list := p.process_list
      no_processes := false }

/-- The loop state of `Recon.recon_stack`: the pending rows, the in-memory
record, the persisted record file, and the order in which tilt-series were
attempted. -/
structure LoopState where
  recon_images : List ReconRow
  meta_out : List ReconRow
  persisted : Option (List ReconRow)
  attempted : List Int
deriving DecidableEq, Repr

/-- Models `Recon.update_recon_metadata`: append to the record the pending
rows whose `recon_output` now exists, keep the others pending, and drop
duplicate rows. -/
def update_recon_metadata (fs : String → Bool) (s : LoopState) : LoopState :=
  { s with
    meta_out := dedupFirst (s.meta_out ++ s.recon_images.filter (fun r => fs r.recon_output))
    recon_images := s.recon_images.filter (fun r => ! fs r.recon_output) }

/-- Models `Recon.export_metadata`: overwrite the record file with `meta_out`. -/
def export_metadata (s : LoopState) : LoopState :=
  { s with persisted := some s.meta_out }

/-- The fields of `subprocess.CompletedProcess` read by `recon_stack`.  The
call redirects stderr into stdout; `stderr` here is the captured error stream
the loop inspects, with `""` playing the role of Python's falsy `None`/`""`. -/
structure InvokeResult where
  returncode : Int
  stdout : String
  stderr : String
deriving DecidableEq, Repr

/-- The `ValueError` message raised by `recon_stack`. -/
def errMsg (rc : Int) (ts : Int) : String :=
  "Batchtomo: An error has occurred (" ++ toString rc ++ ") on stack" ++ toString ts ++ "."

/-- Models the loop of `Recon.recon_stack`: for each tilt-series of the
process list in order, invoke the external tool; a non-empty captured stderr
raises (the run ends with the error message and the state as it was, the
record file keeping its last exported content); otherwise update and export
the metadata and continue.  `fs ts` is the filesystem existence predicate
after item `ts`'s invocation returned. -/
def recon_stack (invoke : Int → InvokeResult) (fs : Int → String → Bool) :
    List Int → LoopState → LoopState × Option String
  | [], s => (s, none)
  | ts :: rest, s =>
    let s1 := { s with attempted := s.attempted ++ [ts] }
    let res := invoke ts
    if res.stderr ≠ "" then
      (s1, some (errMsg res.returncode ts))
    else
      recon_stack invoke fs rest (export_metadata (update_recon_metadata (fs ts) s1))

/-- Fixture: a project requesting the single tilt-series `1`. -/
def pOne : SysParams :=
  { output_path := "p", output_rootname := "TS", output_suffix := "", process_list := [1] }

/-- Fixture: a project requesting tilt-series `1`, `2`, `3`. -/
def pThree : SysParams :=
  { output_path := "p", output_rootname := "TS", output_suffix := "", process_list := [1, 2, 3] }

/-- Fixture: a project with an empty `process_list`. -/
def pEmptyList : SysParams :=
  { output_path := "p", output_rootname := "TS", output_suffix := "", process_list := [] }

/-- Fixture: a filesystem on which no path exists. -/
def fsNone : String → Bool := fun _ => false

/-- Fixture: a filesystem on which every path exists. -/
def fsAll : String → Bool := fun _ => true

/-- Fixture: a record row for an unrequested tilt-series `5`. -/
def rowFive : ReconRow := { ts := 5, align_output := "A5", recon_output := "R5" }

/-- Fixture: the empty initial loop state. -/
def loop0 (p : SysParams) : LoopState :=
  { recon_images := (get_internal_metadata p).recon_images
    meta_out := []
    persisted := none
    attempted := [] }

/-- Fixture: a record row for tilt-series `1` carrying the correct
reconstruction output path but a wrong aligned-artifact path. -/
def partialRow : ReconRow :=
  { ts := 1, align_output := "WRONG", recon_output := (rowOf pOne 1).recon_output }

/-- Fixture: a filesystem on which exactly tilt-series `1`'s reconstruction
output exists. -/
def fsRec1 : String → Bool := fun s => s == (rowOf pOne 1).recon_output

/-- Fixture: a project whose requested set holds the negative index `-1`. -/
def pNeg : SysParams :=
  { output_path := "p", output_rootname := "TS", output_suffix := "", process_list := [-1] }

/-- Fixture: configurations that differ only in one extra trailing `'/'` on
the output path. -/
def pSlashA : SysParams :=
  { output_path := "a/", output_rootname := "r", output_suffix := "s", process_list := [0] }

/-- Fixture: as `pSlashA` with one more trailing `'/'`. -/
def pSlashB : SysParams :=
  { output_path := "a//", output_rootname := "r", output_suffix := "s", process_list := [0] }

/-- Fixture: an external invocation that always reports a non-zero status
with an empty captured error stream. -/
def invRC1 : Int → InvokeResult := fun _ => { returncode := 1, stdout := "", stderr := "" }

/-- Fixture: an external invocation succeeding everywhere except tilt-series
`2`, which reports a non-empty error stream. -/
def invErr2 : Int → InvokeResult := fun ts =>
  if ts = 2 then { returncode := 1, stdout := "x", stderr := "err" }
  else { returncode := 0, stdout := "", stderr := "" }

/-- Fixture: an external invocation that always succeeds quietly. -/
def invOK : Int → InvokeResult := fun _ => { returncode := 0, stdout := "", stderr := "" }

/-- Fixture: after item `ts` has been invoked, exactly the reconstruction
outputs of the tilt-series up to `ts` exist. -/
def fsDone : Int → String → Bool := fun ts s =>
  ((pThree.process_list.filter (fun u => decide (u ≤ ts))).map
    (fun u => (rowOf pThree u).recon_output)).contains s

/-- Fixture: no invocation ever produces a file. -/
def fsNever : Int → String → Bool := fun _ _ => false

/-- Fixture: the freshly initialised `Recon` state for `pThree`. -/
def sInit3 : ReconState :=
  { recon_images := (get_internal_metadata pThree).recon_images
    meta_out := []
    process_list := pThree.process_list
    no_processes := false }

/-! ### Helper lemmas -/

theorem mem_dedupFirstAux {α : Type} [DecidableEq α] (a : α) :
    ∀ (seen : List α) (l : List α), a ∈ dedupFirstAux seen l ↔ a ∈ l ∧ a ∉ seen := by
  intro seen l
  induction l generalizing seen with
  | nil => simp [dedupFirstAux]
  | cons x xs ih =>
    by_cases hax : a = x
    · subst hax
      by_cases hx : a ∈ seen
      · simp [dedupFirstAux, hx, ih]
      · simp [dedupFirstAux, hx, ih]
    · by_cases hx : x ∈ seen
      · simp [dedupFirstAux, hx, ih, hax]
      · simp [dedupFirstAux, hx, ih, hax]

theorem mem_dedupFirst {α : Type} [DecidableEq α] (a : α) (l : List α) :
    a ∈ dedupFirst l ↔ a ∈ l := by
  simp [dedupFirst, mem_dedupFirstAux]

theorem nodup_dedupFirstAux {α : Type} [DecidableEq α] :
    ∀ (seen : List α) (l : List α), (dedupFirstAux seen l).Nodup := by
  intro seen l
  induction l generalizing seen with
  | nil => simp [dedupFirstAux]
  | cons x xs ih =>
    by_cases hx : x ∈ seen
    · simpa [dedupFirstAux, hx] using ih seen
    · simp only [dedupFirstAux, if_neg hx]
      refine List.Pairwise.cons ?_ (ih (x :: seen))
      intro b hb hbx
      rcases (mem_dedupFirstAux b (x :: seen) xs).mp hb with ⟨_, hnb⟩
      subst hbx
      exact hnb (List.mem_cons_self x seen)

theorem nodup_dedupFirst {α : Type} [DecidableEq α] (l : List α) :
    (dedupFirst l).Nodup :=
  nodup_dedupFirstAux [] l

theorem dedupFirstAux_sublist {α : Type} [DecidableEq α] :
    ∀ (seen : List α) (l : List α), List.Sublist (dedupFirstAux seen l) l := by
  intro seen l
  induction l generalizing seen with
  | nil => simp [dedupFirstAux]
  | cons x xs ih =>
    by_cases hx : x ∈ seen
    · simpa [dedupFirstAux, hx] using (ih seen).trans (List.sublist_cons_self x xs)
    · simpa [dedupFirstAux, hx] using List.Sublist.cons₂ x (ih (x :: seen))

theorem dedupFirst_sublist {α : Type} [DecidableEq α] (l : List α) :
    List.Sublist (dedupFirst l) l :=
  dedupFirstAux_sublist [] l

theorem mem_missing_specified (pl : List Int) (fs : String → Bool)
    (meta1 : List ReconRow) (t : ReconRow) :
    t ∈ missing_specified pl fs meta1 ↔
      (t ∈ meta1 ∧ fs t.recon_output = false) ∧ t.ts ∈ pl := by
  simp only [missing_specified, missingRows, List.mem_flatten, List.mem_map]
  constructor
  · rintro ⟨l, ⟨ts, hts, rfl⟩, hl⟩
    rcases List.mem_filter.mp hl with ⟨hm, hdec⟩
    rcases List.mem_filter.mp hm with ⟨h1, h2⟩
    refine ⟨⟨h1, by simpa using h2⟩, ?_⟩
    have : t.ts = ts := by simpa using hdec
    exact this ▸ hts
  · rintro ⟨⟨h1, h2⟩, h3⟩
    refine ⟨_, ⟨t.ts, h3, rfl⟩, ?_⟩
    exact List.mem_filter.mpr ⟨List.mem_filter.mpr ⟨h1, by simp [h2]⟩, by simp⟩

theorem mem_pass1 (pl : List Int) (fs : String → Bool) (meta1 : List ReconRow)
    (r : ReconRow) :
    r ∈ pass1 pl fs meta1 ↔
      r ∈ meta1 ∧ ¬ (fs r.recon_output = false ∧ r.ts ∈ pl) := by
  unfold pass1
  by_cases h : 0 < meta1.length
  · simp only [if_pos h, List.mem_filter, decide_eq_true_eq, mem_missing_specified]
    constructor
    · rintro ⟨h1, h2⟩
      exact ⟨h1, fun hc => h2 ⟨⟨h1, hc.1⟩, hc.2⟩⟩
    · rintro ⟨h1, h2⟩
      exact ⟨h1, fun hc => h2 ⟨hc.1.2, hc.2⟩⟩
  · have : meta1 = [] := List.length_eq_zero.mp (Nat.eq_zero_of_not_pos h)
    subst this
    simp

theorem mem_reconOutputs (l : List ReconRow) (s : String) :
    s ∈ reconOutputs l ↔ ∃ r ∈ l, r.recon_output = s := by
  simp [reconOutputs]

theorem ts_rowOf (p : SysParams) (ts : Int) : (rowOf p ts).ts = ts := rfl

theorem check_meta_out (pl : List Int) (rf : Option (List ReconRow))
    (fs : String → Bool) (s : ReconState) :
    (check_reconned_images pl rf fs s).meta_out =
      pass1 pl fs (dedupFirst (loadRecord rf)) := rfl

theorem check_recon_images (pl : List Int) (rf : Option (List ReconRow))
    (fs : String → Bool) (s : ReconState) :
    (check_reconned_images pl rf fs s).recon_images =
      s.recon_images.filter (fun r =>
        decide (¬ r.recon_output ∈ reconOutputs (pass1 pl fs (dedupFirst (loadRecord rf))))) := rfl

theorem check_process_list (pl : List Int) (rf : Option (List ReconRow))
    (fs : String → Bool) (s : ReconState) :
    (check_reconned_images pl rf fs s).process_list =
      dedupFirst (List.insertionSort (fun a b : Int => a ≤ b)
        ((check_reconned_images pl rf fs s).recon_images.map ReconRow.ts)) := rfl

theorem reconInit_meta_out (p : SysParams) (rf : Option (List ReconRow))
    (fs : String → Bool) :
    (reconInit p rf fs).meta_out = pass1 p.process_list fs (dedupFirst (loadRecord rf)) := rfl

theorem reconInit_recon_images (p : SysParams) (rf : Option (List ReconRow))
    (fs : String → Bool) :
    (reconInit p rf fs).recon_images =
      (p.process_list.map (rowOf p)).filter (fun r =>
        decide (¬ r.recon_output ∈
          reconOutputs (pass1 p.process_list fs (dedupFirst (loadRecord rf))))) := rfl

/-- Membership in the pruned work list, in terms of the pruned pending rows. -/
theorem mem_check_process_list (pl : List Int) (rf : Option (List ReconRow))
    (fs : String → Bool) (s : ReconState) (x : Int) :
    x ∈ (check_reconned_images pl rf fs s).process_list ↔
      ∃ r ∈ (check_reconned_images pl rf fs s).recon_images, r.ts = x := by
  rw [check_process_list]
  rw [mem_dedupFirst]
  rw [List.mem_insertionSort]
  simp [List.mem_map, eq_comm]

theorem mem_reconInit_process_list (p : SysParams) (rf : Option (List ReconRow))
    (fs : String → Bool) (x : Int) :
    x ∈ (reconInit p rf fs).process_list ↔
      ∃ r ∈ (reconInit p rf fs).recon_images, r.ts = x :=
  mem_check_process_list p.process_list rf fs
    { recon_images := (get_internal_metadata p).recon_images
      meta_out := []
      process_list := p.process_list
      no_processes := false } x

theorem reconInit_process_list_eq (p : SysParams) (rf : Option (List ReconRow))
    (fs : String → Bool) :
    (reconInit p rf fs).process_list =
      dedupFirst (List.insertionSort (fun a b : Int => a ≤ b)
        ((reconInit p rf fs).recon_images.map ReconRow.ts)) := rfl

theorem reconInit_no_processes (p : SysParams) (rf : Option (List ReconRow))
    (fs : String → Bool) :
    (reconInit p rf fs).no_processes =
      (if ((p.process_list.map (rowOf p)).filter (fun r =>
          decide (r.recon_output ∈
            reconOutputs (pass1 p.process_list fs (dedupFirst (loadRecord rf)))))).length =
        (p.process_list.map (rowOf p)).length then true else false) := rfl

theorem rowOf_eq_of_strips (p q : SysParams)
    (hb : stripTrailing q.output_path '/' = stripTrailing p.output_path '/')
    (hr : stripTrailing q.output_rootname '_' = stripTrailing p.output_rootname '_')
    (hs : stripTrailing q.output_suffix '_' = stripTrailing p.output_suffix '_') :
    rowOf q = rowOf p := by
  funext ts
  simp only [rowOf, hb, hr, hs]

theorem gim_eq_of_strips (p q : SysParams)
    (hpl : q.process_list = p.process_list)
    (hb : stripTrailing q.output_path '/' = stripTrailing p.output_path '/')
    (hr : stripTrailing q.output_rootname '_' = stripTrailing p.output_rootname '_')
    (hs : stripTrailing q.output_suffix '_' = stripTrailing p.output_suffix '_') :
    get_internal_metadata q = get_internal_metadata p := by
  have hrow : rowOf q = rowOf p := rowOf_eq_of_strips p q hb hr hs
  simp only [get_internal_metadata, hb, hr, hs, hpl, hrow]

theorem stripTrailing_concat (s : String) (c : Char) :
    stripTrailing (s ++ String.mk [c]) c = s := by
  have h1 : endsWithChar (s ++ String.mk [c]) c = true := by
    simp [endsWithChar, String.data_append, List.getLast?_concat]
  unfold stripTrailing
  rw [h1]
  show String.mk (s.data ++ [c]).dropLast = s
  rw [List.dropLast_concat]

theorem stripTrailing_of_not_ends (s : String) (c : Char)
    (h : endsWithChar s c = false) : stripTrailing s c = s := by
  unfold stripTrailing
  rw [h]
  rfl

theorem stripTrailing_append_slash (s : String) : stripTrailing (s ++ "/") '/' = s :=
  stripTrailing_concat s '/'

theorem stripTrailing_append_underscore (s : String) : stripTrailing (s ++ "_") '_' = s :=
  stripTrailing_concat s '_'

/-! ### Claim theorems -/

/-- C1 (counterexample): the claim that Pass 1 removes *every* record row with
a missing reconstruction output, including rows whose id is not in the
requested process list, is false: the row for the unrequested tilt-series `5`
has a missing output, yet it survives reconciliation. -/
theorem recon_pass1_keeps_unrequested_stale_row :
    fsNone rowFive.recon_output = false ∧
    rowFive.ts ∉ pOne.process_list ∧
    rowFive ∈ (reconInit pOne (some [rowFive]) fsNone).meta_out := by
  decide

/-- C1 (amended): Pass 1 removes from the loaded (deduplicated) record every
row whose reconstruction output does not exist *and whose id is in the
requested process list*; such a removed, requested id becomes eligible again
in the pruned work list, provided every record row claiming that item's
reconstruction output path carries a requested id. -/
theorem recon_pass1_removes_requested_stale_rows (p : SysParams)
    (rf : Option (List ReconRow)) (fs : String → Bool) :
    (∀ r ∈ loadRecord rf, fs r.recon_output = false → r.ts ∈ p.process_list →
      r ∉ (reconInit p rf fs).meta_out) ∧
    (∀ ts ∈ p.process_list, fs ((rowOf p ts).recon_output) = false →
      (∀ t ∈ loadRecord rf, t.recon_output = (rowOf p ts).recon_output →
        t.ts ∈ p.process_list) →
      ts ∈ (reconInit p rf fs).process_list) := by
  constructor
  · intro r _ hfs hts hmem
    rw [reconInit_meta_out] at hmem
    rcases (mem_pass1 _ _ _ r).mp hmem with ⟨_, hno⟩
    exact hno ⟨hfs, hts⟩
  · intro ts hts hfs hwf
    have h1 : rowOf p ts ∈ (reconInit p rf fs).recon_images := by
      rw [reconInit_recon_images]
      refine List.mem_filter.mpr ⟨List.mem_map.mpr ⟨ts, hts, rfl⟩, ?_⟩
      rw [decide_eq_true_eq]
      intro hmem
      rcases (mem_reconOutputs _ _).mp hmem with ⟨t, htmem, hteq⟩
      rcases (mem_pass1 _ _ _ t).mp htmem with ⟨htrec, hno⟩
      have htrec' : t ∈ loadRecord rf := (mem_dedupFirst _ _).mp htrec
      exact hno ⟨by rw [hteq]; exact hfs, hwf t htrec' hteq⟩
    exact (mem_reconInit_process_list p rf fs ts).mpr ⟨rowOf p ts, h1, ts_rowOf p ts⟩

/-- C1 (witness): on a record holding the derived row of the requested
tilt-series `1` whose output is absent from the filesystem, the row is pruned
and `1` is eligible again. -/
theorem recon_pass1_removes_requested_stale_rows_witness :
    rowOf pOne 1 ∉ (reconInit pOne (some [rowOf pOne 1]) fsNone).meta_out ∧
    (1 : Int) ∈ (reconInit pOne (some [rowOf pOne 1]) fsNone).process_list :=
  ⟨(recon_pass1_removes_requested_stale_rows pOne (some [rowOf pOne 1]) fsNone).1
      (rowOf pOne 1) (by decide) rfl (by decide),
   (recon_pass1_removes_requested_stale_rows pOne (some [rowOf pOne 1]) fsNone).2
      1 (by decide) rfl (by decide)⟩

/-- C3 (counterexample): the claim that an item counts as satisfied only if
*all* of its expected output paths (aligned and reconstructed) appear as
record rows is false: the record holds only a row with item `1`'s
reconstruction output (its aligned path does not appear anywhere in the
record), yet item `1` is dropped from the work list instead of being kept for
full reprocessing. -/
theorem recon_pass2_partial_item_dropped :
    partialRow ∈ (reconInit pOne (some [partialRow]) fsRec1).meta_out ∧
    (rowOf pOne 1).align_output ∉
      ((reconInit pOne (some [partialRow]) fsRec1).meta_out.map ReconRow.align_output) ∧
    (reconInit pOne (some [partialRow]) fsRec1).process_list = [] := by
  decide

/-- C3 (amended): Pass 2 drops a requested item from the pruned work list
exactly when the item's *reconstruction* output path equals the
`recon_output` of some pruned-record row; the aligned artifact path is never
consulted. -/
theorem recon_pass2_matches_recon_output_only (p : SysParams)
    (rf : Option (List ReconRow)) (fs : String → Bool) (ts : Int)
    (hts : ts ∈ p.process_list) :
    ts ∉ (reconInit p rf fs).process_list ↔
      (rowOf p ts).recon_output ∈ reconOutputs ((reconInit p rf fs).meta_out) := by
  constructor
  · intro hout
    by_contra hmem
    apply hout
    apply (mem_reconInit_process_list p rf fs ts).mpr
    refine ⟨rowOf p ts, ?_, ts_rowOf p ts⟩
    rw [reconInit_recon_images]
    exact List.mem_filter.mpr ⟨List.mem_map.mpr ⟨ts, hts, rfl⟩, by
      rw [decide_eq_true_eq]; exact fun h => hmem h⟩
  · intro hmem hout
    rcases (mem_reconInit_process_list p rf fs ts).mp hout with ⟨r, hr, hrts⟩
    rw [reconInit_recon_images] at hr
    rcases List.mem_filter.mp hr with ⟨hrmap, hrpred⟩
    rcases List.mem_map.mp hrmap with ⟨ts', _, rfl⟩
    have hts'x : ts' = ts := by simpa [ts_rowOf] using hrts
    subst hts'x
    rw [decide_eq_true_eq] at hrpred
    exact hrpred hmem

/-- C3 (witness): with only the partial row recorded (reconstruction path
matching, aligned path absent), item `1` is dropped from the work list. -/
theorem recon_pass2_matches_recon_output_only_witness :
    (1 : Int) ∉ (reconInit pOne (some [partialRow]) fsRec1).process_list :=
  (recon_pass2_matches_recon_output_only pOne (some [partialRow]) fsRec1 1
    (by decide)).mpr (by decide)

/-- C4 (confirmed): no double-processing — a requested item whose full
derived row is in the loaded record and whose output files all exist on the
filesystem is not in the pruned work list. -/
theorem no_double_processing (p : SysParams) (rf : Option (List ReconRow))
    (fs : String → Bool) (x : Int)
    (hx : x ∈ p.process_list)
    (hrow : rowOf p x ∈ loadRecord rf)
    (hfsA : fs ((rowOf p x).align_output) = true)
    (hfsR : fs ((rowOf p x).recon_output) = true) :
    x ∉ (reconInit p rf fs).process_list := by
  intro hout
  rcases (mem_reconInit_process_list p rf fs x).mp hout with ⟨r, hr, hrts⟩
  rw [reconInit_recon_images] at hr
  rcases List.mem_filter.mp hr with ⟨hrmap, hrpred⟩
  rcases List.mem_map.mp hrmap with ⟨ts', _, rfl⟩
  have hts'x : ts' = x := by simpa [ts_rowOf] using hrts
  rw [decide_eq_true_eq] at hrpred
  rw [hts'x] at hrpred
  apply hrpred
  apply (mem_reconOutputs _ _).mpr
  refine ⟨rowOf p x, ?_, rfl⟩
  apply (mem_pass1 _ _ _ _).mpr
  refine ⟨(mem_dedupFirst _ _).mpr hrow, ?_⟩
  rintro ⟨hfalse, -⟩
  rw [hfsR] at hfalse
  cases hfalse

/-- C4 (witness): item `1` is fully recorded and its outputs exist, so it is
skipped. -/
theorem no_double_processing_witness :
    (1 : Int) ∉ (reconInit pOne (some [rowOf pOne 1]) fsAll).process_list :=
  no_double_processing pOne (some [rowOf pOne 1]) fsAll 1 (by decide) (by decide) rfl rfl

/-- C9 (counterexample): the claim that construction fails with a
`ConfigurationError` on an empty or invalid requested-id set is false: no
validation exists in `Recon.__init__`.  Construction with an empty
`process_list` completes normally (yielding a no-op state), and a negative
identifier is accepted with a path derived by string formatting. -/
theorem init_accepts_empty_and_negative_ids :
    reconInit pEmptyList none fsNone =
      { recon_images := [], meta_out := [], process_list := [], no_processes := true } ∧
    reconInit pNeg none fsNone =
      { recon_images := [rowOf pNeg (-1)], meta_out := [], process_list := [-1],
        no_processes := false } ∧
    (rowOf pNeg (-1)).recon_output = "p/TS_-1/TS_-1_rec.mrc" := by
  decide

/-- C9 (amended): construction performs no validation of the requested-id
set; an empty `process_list` is accepted without error and yields an empty
pruned work list with `no_processes = true` (a no-op run); no
`ConfigurationError` path exists. -/
theorem init_empty_request_is_noop (p : SysParams) (rf : Option (List ReconRow))
    (fs : String → Bool) (h : p.process_list = []) :
    (reconInit p rf fs).recon_images = [] ∧
    (reconInit p rf fs).process_list = [] ∧
    (reconInit p rf fs).no_processes = true := by
  refine ⟨?_, ?_, ?_⟩
  · rw [reconInit_recon_images, h]
    rfl
  · rw [reconInit_process_list_eq, reconInit_recon_images, h]
    rfl
  · rw [reconInit_no_processes, h]
    rfl

/-- C9 (witness): the amended no-op behaviour at the concrete empty-request
fixture. -/
theorem init_empty_request_is_noop_witness :
    (reconInit pEmptyList none fsNone).recon_images = [] ∧
    (reconInit pEmptyList none fsNone).process_list = [] ∧
    (reconInit pEmptyList none fsNone).no_processes = true :=
  init_empty_request_is_noop pEmptyList none fsNone rfl

/-- C10 (counterexample): the claim that configurations differing only in a
single trailing separator always derive identical output directories and
paths is false: normalization strips exactly one trailing `'/'`, so `"a/"`
and `"a//"` (which differ by a single trailing `'/'`) derive different
directories and file paths. -/
theorem trailing_sep_not_always_normalized :
    pSlashB.output_path = pSlashA.output_path ++ "/" ∧
    pSlashB.output_rootname = pSlashA.output_rootname ∧
    pSlashB.output_suffix = pSlashA.output_suffix ∧
    pSlashB.process_list = pSlashA.process_list ∧
    get_internal_metadata pSlashB ≠ get_internal_metadata pSlashA := by
  decide

/-- C10 (amended): exactly one trailing separator is stripped, so appending a
single trailing separator to a component that does not already end with that
separator leaves all derived directories and paths unchanged. -/
theorem single_trailing_sep_normalized (p : SysParams)
    (h1 : endsWithChar p.output_path '/' = false)
    (h2 : endsWithChar p.output_rootname '_' = false)
    (h3 : endsWithChar p.output_suffix '_' = false) :
    get_internal_metadata { p with output_path := p.output_path ++ "/" } =
      get_internal_metadata p ∧
    get_internal_metadata { p with output_rootname := p.output_rootname ++ "_" } =
      get_internal_metadata p ∧
    get_internal_metadata { p with output_suffix := p.output_suffix ++ "_" } =
      get_internal_metadata p := by
  refine ⟨?_, ?_, ?_⟩
  · refine gim_eq_of_strips p _ rfl ?_ rfl rfl
    show stripTrailing (p.output_path ++ "/") '/' = stripTrailing p.output_path '/'
    rw [stripTrailing_append_slash, stripTrailing_of_not_ends p.output_path '/' h1]
  · refine gim_eq_of_strips p _ rfl rfl ?_ rfl
    show stripTrailing (p.output_rootname ++ "_") '_' = stripTrailing p.output_rootname '_'
    rw [stripTrailing_append_underscore, stripTrailing_of_not_ends p.output_rootname '_' h2]
  · refine gim_eq_of_strips p _ rfl rfl rfl ?_
    show stripTrailing (p.output_suffix ++ "_") '_' = stripTrailing p.output_suffix '_'
    rw [stripTrailing_append_underscore, stripTrailing_of_not_ends p.output_suffix '_' h3]

theorem filter_self_idem {α : Type} (f : α → Bool) (l : List α) :
    (l.filter f).filter f = l.filter f := by
  rw [List.filter_filter]
  simp

theorem filter_pos_of_filter_neg {α : Type} (f : α → Bool) (l : List α) :
    (l.filter (fun a => ! f a)).filter f = [] := by
  rw [List.filter_eq_nil_iff]
  intro a ha
  rcases List.mem_filter.mp ha with ⟨_, hna⟩
  simp at hna
  simp [hna]

theorem recon_stack_cons_ok (invoke : Int → InvokeResult) (fs : Int → String → Bool)
    (t : Int) (rest : List Int) (s : LoopState) (h : (invoke t).stderr = "") :
    recon_stack invoke fs (t :: rest) s =
      recon_stack invoke fs rest
        (export_metadata (update_recon_metadata (fs t)
          { s with attempted := s.attempted ++ [t] })) := by
  simp only [recon_stack]
  rw [if_neg (by simp [h])]

theorem recon_stack_cons_err (invoke : Int → InvokeResult) (fs : Int → String → Bool)
    (t : Int) (rest : List Int) (s : LoopState) (h : (invoke t).stderr ≠ "") :
    recon_stack invoke fs (t :: rest) s =
      ({ s with attempted := s.attempted ++ [t] },
        some (errMsg (invoke t).returncode t)) := by
  simp only [recon_stack]
  rw [if_pos h]

/-- C5 (confirmed): reconciliation is idempotent — with the requested list,
the record file and the filesystem unchanged, running
`_check_reconned_images` a second time leaves the whole state (pruned record,
pending rows, pruned work list and the `no_processes` flag) unchanged. -/
theorem reconcile_idempotent (pl : List Int) (rf : Option (List ReconRow))
    (fs : String → Bool) (s : ReconState) :
    check_reconned_images pl rf fs (check_reconned_images pl rf fs s) =
      check_reconned_images pl rf fs s := by
  simp only [check_reconned_images]
  rw [ReconState.mk.injEq]
  have hidem :
      (List.filter (fun r =>
          decide (¬ r.recon_output ∈ reconOutputs (pass1 pl fs (dedupFirst (loadRecord rf)))))
        (List.filter (fun r =>
          decide (¬ r.recon_output ∈ reconOutputs (pass1 pl fs (dedupFirst (loadRecord rf)))))
          s.recon_images)) =
      (List.filter (fun r =>
          decide (¬ r.recon_output ∈ reconOutputs (pass1 pl fs (dedupFirst (loadRecord rf)))))
        s.recon_images) :=
    filter_self_idem _ _
  refine ⟨hidem, rfl, by rw [hidem], ?_⟩
  have hposneg :
      (List.filter (fun r =>
          decide (r.recon_output ∈ reconOutputs (pass1 pl fs (dedupFirst (loadRecord rf)))))
        (List.filter (fun r =>
          decide (¬ r.recon_output ∈ reconOutputs (pass1 pl fs (dedupFirst (loadRecord rf)))))
          s.recon_images)) = [] := by
    have := filter_pos_of_filter_neg (fun r =>
      decide (r.recon_output ∈ reconOutputs (pass1 pl fs (dedupFirst (loadRecord rf)))))
      s.recon_images
    simpa [decide_not] using this
  rw [hposneg]
  by_cases hk :
      (List.filter (fun r =>
          decide (¬ r.recon_output ∈ reconOutputs (pass1 pl fs (dedupFirst (loadRecord rf)))))
        s.recon_images) = []
  · rw [hk]
    have hall : (List.filter (fun r =>
        decide (r.recon_output ∈ reconOutputs (pass1 pl fs (dedupFirst (loadRecord rf)))))
        s.recon_images) = s.recon_images := by
      rw [List.filter_eq_self]
      intro a ha
      have := List.filter_eq_nil_iff.mp hk a ha
      simpa [decide_not] using this
    rw [hall]
    simp
  · rw [if_neg (fun hlen => hk (List.length_eq_zero.mp hlen.symm))]

/-- C2 (counterexample): the claim that a non-zero status makes the run raise
immediately is false — the loop inspects only the captured error stream.  An
invocation with return code `1` and empty stderr does not halt the run: item
`3` is still processed after item `2`, and no error is reported. -/
theorem nonzero_status_does_not_halt :
    (invRC1 2).returncode ≠ 0 ∧
    (recon_stack invRC1 fsNever [2, 3] (loop0 pThree)).2 = none ∧
    (recon_stack invRC1 fsNever [2, 3] (loop0 pThree)).1.attempted = [2, 3] := by
  decide

/-- C2 (amended): if the invocation for item `k` reports a non-empty captured
error stream (the only failure condition the loop checks; status alone is
ignored), the run raises immediately after attempting `k`: no later item is
processed, `k` is not recorded, and the state — including the persisted
record — is exactly that of the successful prefix. -/
theorem recon_stack_halts_on_nonempty_stderr (invoke : Int → InvokeResult)
    (fs : Int → String → Bool) (k : Int) (rest : List Int) (done : List Int)
    (s : LoopState)
    (hdone : ∀ t ∈ done, (invoke t).stderr = "")
    (hk : (invoke k).stderr ≠ "") :
    recon_stack invoke fs (done ++ k :: rest) s =
      ({ (recon_stack invoke fs done s).1 with
          attempted := (recon_stack invoke fs done s).1.attempted ++ [k] },
        some (errMsg (invoke k).returncode k)) ∧
    (recon_stack invoke fs done s).2 = none := by
  induction done generalizing s with
  | nil =>
    constructor
    · rw [List.nil_append, recon_stack_cons_err invoke fs k rest s hk]
      rfl
    · rfl
  | cons t ds ih =>
    have ht : (invoke t).stderr = "" := hdone t (List.mem_cons_self t ds)
    have hds : ∀ u ∈ ds, (invoke u).stderr = "" :=
      fun u hu => hdone u (List.mem_cons_of_mem t hu)
    rw [List.cons_append, recon_stack_cons_ok invoke fs t (ds ++ k :: rest) s ht,
      recon_stack_cons_ok invoke fs t ds s ht]
    exact ih _ hds

/-- C2 (witness): with item `2` failing on stderr after item `1` succeeded,
the run over `[1, 2, 3]` halts at `2` in the state of the `[1]`-prefix run. -/
theorem recon_stack_halts_on_nonempty_stderr_witness :
    recon_stack invErr2 fsDone ([1] ++ 2 :: [3]) (loop0 pThree) =
      ({ (recon_stack invErr2 fsDone [1] (loop0 pThree)).1 with
          attempted := (recon_stack invErr2 fsDone [1] (loop0 pThree)).1.attempted ++ [2] },
        some (errMsg (invErr2 2).returncode 2)) ∧
    (recon_stack invErr2 fsDone [1] (loop0 pThree)).2 = none :=
  recon_stack_halts_on_nonempty_stderr invErr2 fsDone 2 [3] [1] (loop0 pThree)
    (by decide) (by decide)

/-- C6 (confirmed): after a successful invocation, the loop re-checks the
filesystem, appends to the record exactly the pending rows whose
reconstruction output now exists, persists the record before the next item's
invocation begins, and keeps rows with missing outputs pending and (if not
previously recorded) absent from the record. -/
theorem loop_rechecks_and_persists_each_item (invoke : Int → InvokeResult)
    (fs : Int → String → Bool) (ts : Int) (rest : List Int) (s : LoopState)
    (h : (invoke ts).stderr = "") :
    recon_stack invoke fs (ts :: rest) s =
      recon_stack invoke fs rest
        (export_metadata (update_recon_metadata (fs ts)
          { s with attempted := s.attempted ++ [ts] })) ∧
    (export_metadata (update_recon_metadata (fs ts)
        { s with attempted := s.attempted ++ [ts] })).persisted =
      some (update_recon_metadata (fs ts)
        { s with attempted := s.attempted ++ [ts] }).meta_out ∧
    (∀ r, r ∈ (update_recon_metadata (fs ts) s).meta_out ↔
      (r ∈ s.meta_out ∨ (r ∈ s.recon_images ∧ fs ts r.recon_output = true))) ∧
    (∀ r ∈ s.recon_images, fs ts r.recon_output = false →
      (r ∈ (update_recon_metadata (fs ts) s).recon_images ∧
        (r ∉ s.meta_out → r ∉ (update_recon_metadata (fs ts) s).meta_out))) := by
  refine ⟨recon_stack_cons_ok invoke fs ts rest s h, rfl, ?_, ?_⟩
  · intro r
    show r ∈ dedupFirst (s.meta_out ++ s.recon_images.filter (fun r => fs ts r.recon_output)) ↔ _
    rw [mem_dedupFirst, List.mem_append, List.mem_filter]
  · intro r hr hfs
    constructor
    · exact List.mem_filter.mpr ⟨hr, by simp [hfs]⟩
    · intro hnot hmem
      rw [show (update_recon_metadata (fs ts) s).meta_out =
          dedupFirst (s.meta_out ++ s.recon_images.filter (fun r => fs ts r.recon_output))
          from rfl, mem_dedupFirst, List.mem_append, List.mem_filter] at hmem
      rcases hmem with hold | ⟨_, hnew⟩
      · exact hnot hold
      · rw [hfs] at hnew
        cases hnew

/-- C6 (witness): one successful step over the `pThree` fixture. -/
theorem loop_rechecks_and_persists_each_item_witness :
    recon_stack invOK fsDone (1 :: [2, 3]) (loop0 pThree) =
      recon_stack invOK fsDone [2, 3]
        (export_metadata (update_recon_metadata (fsDone 1)
          { loop0 pThree with attempted := (loop0 pThree).attempted ++ [1] })) ∧
    (export_metadata (update_recon_metadata (fsDone 1)
        { loop0 pThree with attempted := (loop0 pThree).attempted ++ [1] })).persisted =
      some (update_recon_metadata (fsDone 1)
        { loop0 pThree with attempted := (loop0 pThree).attempted ++ [1] }).meta_out ∧
    (∀ r, r ∈ (update_recon_metadata (fsDone 1) (loop0 pThree)).meta_out ↔
      (r ∈ (loop0 pThree).meta_out ∨
        (r ∈ (loop0 pThree).recon_images ∧ fsDone 1 r.recon_output = true))) ∧
    (∀ r ∈ (loop0 pThree).recon_images, fsDone 1 r.recon_output = false →
      (r ∈ (update_recon_metadata (fsDone 1) (loop0 pThree)).recon_images ∧
        (r ∉ (loop0 pThree).meta_out →
          r ∉ (update_recon_metadata (fsDone 1) (loop0 pThree)).meta_out))) :=
  loop_rechecks_and_persists_each_item invOK fsDone 1 [2, 3] (loop0 pThree) rfl

/-- C7 (confirmed): the completion record never holds two identical rows —
both loading (inside reconciliation) and the per-item update end with a
keep-first deduplication, whose output is duplicate-free, is a sublist of its
input (first-seen order preserved) and has the same members. -/
theorem record_rows_unique (pl : List Int) (rf : Option (List ReconRow))
    (fs : String → Bool) (s : ReconState) (fs2 : String → Bool) (s2 : LoopState)
    (l : List ReconRow) :
    ((check_reconned_images pl rf fs s).meta_out).Nodup ∧
    ((update_recon_metadata fs2 s2).meta_out).Nodup ∧
    List.Sublist (dedupFirst l) l ∧
    (∀ r, r ∈ dedupFirst l ↔ r ∈ l) := by
  refine ⟨?_, ?_, dedupFirst_sublist l, fun r => mem_dedupFirst r l⟩
  · rw [check_meta_out]
    unfold pass1
    by_cases h : 0 < (dedupFirst (loadRecord rf)).length
    · rw [if_pos h]
      exact (nodup_dedupFirst _).filter _
    · rw [if_neg h]
      exact nodup_dedupFirst _
  · exact nodup_dedupFirst _

/-- C8 (confirmed): the pruned work list produced by reconciliation is
strictly ascending in the tilt-series id, and the execution loop attempts
items exactly in the order of the list it is given (appending them in order
to the attempt trace, with no failure when every invocation is quiet). -/
theorem process_list_ascending_and_loop_in_order (pl : List Int)
    (rf : Option (List ReconRow)) (fs : String → Bool) (s : ReconState)
    (invoke : Int → InvokeResult) (fsl : Int → String → Bool) (l : List Int)
    (s0 : LoopState) (h : ∀ t ∈ l, (invoke t).stderr = "") :
    List.Chain' (fun a b : Int => a < b)
      ((check_reconned_images pl rf fs s).process_list) ∧
    (recon_stack invoke fsl l s0).1.attempted = s0.attempted ++ l ∧
    (recon_stack invoke fsl l s0).2 = none := by
  have hloop : ∀ (m : List Int) (st : LoopState), (∀ t ∈ m, (invoke t).stderr = "") →
      (recon_stack invoke fsl m st).1.attempted = st.attempted ++ m ∧
      (recon_stack invoke fsl m st).2 = none := by
    intro m
    induction m with
    | nil =>
      intro st _
      simp [recon_stack]
    | cons t ms ih =>
      intro st hst
      rw [recon_stack_cons_ok invoke fsl t ms st (hst t (List.mem_cons_self t ms))]
      have hrec := ih (export_metadata (update_recon_metadata (fsl t)
          { st with attempted := st.attempted ++ [t] }))
        (fun u hu => hst u (List.mem_cons_of_mem t hu))
      constructor
      · rw [hrec.1]
        show st.attempted ++ [t] ++ ms = st.attempted ++ t :: ms
        rw [List.append_assoc]
        rfl
      · exact hrec.2
  refine ⟨?_, (hloop l s0 h).1, (hloop l s0 h).2⟩
  rw [check_process_list]
  apply List.Pairwise.chain'
  have hsort : List.Pairwise (fun a b : Int => a ≤ b)
      (List.insertionSort (fun a b : Int => a ≤ b)
        ((check_reconned_images pl rf fs s).recon_images.map ReconRow.ts)) :=
    List.sorted_insertionSort _ _
  have hle := List.Pairwise.sublist (dedupFirst_sublist _) hsort
  have hne : List.Pairwise (fun a b : Int => a ≠ b)
      (dedupFirst (List.insertionSort (fun a b : Int => a ≤ b)
        ((check_reconned_images pl rf fs s).recon_images.map ReconRow.ts))) :=
    nodup_dedupFirst _
  exact List.Pairwise.imp₂ (fun a b h1 h2 => lt_of_le_of_ne h1 h2) hle hne

/-- C8 (witness): the `pThree` fixture — ascending pruned list, and the loop
attempts `[1, 2, 3]` in order with no failure. -/
theorem process_list_ascending_and_loop_in_order_witness :
    List.Chain' (fun a b : Int => a < b)
      ((check_reconned_images pThree.process_list none fsNone sInit3).process_list) ∧
    (recon_stack invOK fsDone [1, 2, 3] (loop0 pThree)).1.attempted =
      (loop0 pThree).attempted ++ [1, 2, 3] ∧
    (recon_stack invOK fsDone [1, 2, 3] (loop0 pThree)).2 = none :=
  process_list_ascending_and_loop_in_order pThree.process_list none fsNone sInit3
    invOK fsDone [1, 2, 3] (loop0 pThree) (by decide)

/-- C10 (witness): the amended normalization at the concrete fixture `pOne`,
none of whose components end with their separator. -/
theorem single_trailing_sep_normalized_witness :
    get_internal_metadata { pOne with output_path := pOne.output_path ++ "/" } =
      get_internal_metadata pOne ∧
    get_internal_metadata { pOne with output_rootname := pOne.output_rootname ++ "_" } =
      get_internal_metadata pOne ∧
    get_internal_metadata { pOne with output_suffix := pOne.output_suffix ++ "_" } =
      get_internal_metadata pOne :=
  single_trailing_sep_normalized pOne (by decide) (by decide) (by decide)
